import Mathlib

/-!
Shallow embedding of the linked-list library (src: linked_list.c together
with linked_list.h, iterator.h, common.h).

Modelling conventions:
- Heap addresses are natural numbers; 0 plays the role of NULL.  calloc for
  links is modelled by Heap.alloc, which hands out the next fresh address
  (starting at 1) and zero-initialises nothing beyond the stored link; the
  sentinel allocated by linked_list_create is zero-initialised (value 0,
  next NULL) exactly as calloc(1, sizeof(link_t)) produces.
- free releases ownership only: no address is ever reused (fresh never
  decreases), and the bytes of a freed link stay readable, which matches
  the concrete executions examined here (no reallocation happens between
  a free and a later access in any trace we evaluate).
- elem_t is the C union viewed through its int member, the only member the
  library itself ever writes (the no-value marker sets .i = -1).
- int is modelled as a mathematical integer wrapped to 32 bits where the C
  performs an implementation-defined narrowing (toInt32); size_t arithmetic
  is performed modulo 2^64 (toSizeT, size_t_mod).
- Allocation failure of link_new (calloc returning NULL) is modelled by the
  explicit boolean parameter ok: ok = false makes link_new return NULL (0)
  and leave the heap unchanged.
- The C while-loops that follow next pointers until NULL are given an
  explicit fuel parameter; any fuel at least the chain length makes the
  model agree with the C loop (the loops examined terminate exactly when
  the chain is NULL-terminated).
- Functions that invoke caller-supplied callbacks (contains, all,
  apply_to_all) are instrumented: besides the C return value they return
  the list of arguments on which the callback was actually invoked, in
  invocation order, following C evaluation rules (in particular the
  short-circuit of the && operator in linked_list_all).
-/

/-- The C union elem_t seen through its int member .i. -/
abbrev elem_t := Int

/-- struct link: one element value and the address of the next link (0 = NULL). -/
structure link_t where
  value : elem_t
  next : Nat
deriving DecidableEq

/-- The heap of link nodes: contents of every address, and the next fresh address. -/
structure Heap where
  mem : Nat → link_t
  fresh : Nat

/-- Store a link at an address. -/
def Heap.write (h : Heap) (a : Nat) (l : link_t) : Heap :=
  ⟨fun b => if b = a then l else h.mem b, h.fresh⟩

/-- ptr->next = n. -/
def Heap.writeNext (h : Heap) (a : Nat) (n : Nat) : Heap :=
  h.write a ⟨(h.mem a).value, n⟩

/-- ptr->value = v. -/
def Heap.writeValue (h : Heap) (a : Nat) (v : elem_t) : Heap :=
  h.write a ⟨v, (h.mem a).next⟩

/-- Successful calloc of one link: returns the fresh address and the new heap. -/
def Heap.alloc (h : Heap) (l : link_t) : Nat × Heap :=
  (h.fresh, ⟨fun b => if b = h.fresh then l else h.mem b, h.fresh + 1⟩)

/-- The initial heap: nothing allocated, addresses start at 1 (0 is NULL). -/
def emptyHeap : Heap :=
  ⟨fun _ => ⟨0, 0⟩, 1⟩

/-- struct list: first (the sentinel), last, cached size, equality comparator. -/
structure list_t where
  first : Nat
  last : Nat
  size : Nat
  eqfun : elem_t → elem_t → Bool

/-- A program state: the link heap together with the one list under study. -/
structure State where
  heap : Heap
  lst : list_t

/-- struct iter: the current link address.  The list member of the C struct is
implicit here because the state carries the single list the iterator is bound to. -/
structure list_iterator_t where
  current : Nat
deriving DecidableEq

/-- 2^64, the modulus of size_t arithmetic. -/
def size_t_mod : Nat := 2 ^ 64

/-- C conversion of an integer value to size_t (reduction modulo 2^64). -/
def toSizeT (x : Int) : Nat :=
  (x % (size_t_mod : Int)).toNat

/-- C narrowing of a value to int (two's-complement wrap to 32 bits, as gcc does). -/
def toInt32 (x : Int) : Int :=
  (x + 2 ^ 31) % 2 ^ 32 - 2 ^ 31

/-- static link_t *link_new(const elem_t value, link_t *next).
ok models whether the calloc succeeds; on failure the C prints and returns NULL. -/
def link_new (ok : Bool) (h : Heap) (value : elem_t) (next : Nat) : Nat × Heap :=
  if ok then h.alloc ⟨value, next⟩ else (0, h)

/-- static int list_inner_adjust_index(const int index, const size_t upper_bound).
The negative branch computes index + upper_bound in size_t arithmetic and
narrows the result back to int, exactly as the C does. -/
def list_inner_adjust_index (index : Int) (upper_bound : Nat) : Int :=
  let index_adjusted : Int :=
    if index < 0 then toInt32 (((toSizeT index + upper_bound) % size_t_mod : Nat) : Int)
    else index
  if index_adjusted < 0 then -1
  else if toSizeT index_adjusted > upper_bound then -1
  else index_adjusted

/-- list_t *linked_list_create(eq_function fun): calloc the list and a
zero-initialised sentinel; first = last = sentinel, size = 0. -/
def linked_list_create (eqfun : elem_t → elem_t → Bool) : State :=
  let p := Heap.alloc emptyHeap ⟨0, 0⟩
  ⟨p.2, ⟨p.1, p.1, 0, eqfun⟩⟩

/-- list_iterator_t *list_iterator(list_t *list): current starts at the sentinel. -/
def list_iterator (s : State) : list_iterator_t :=
  ⟨s.lst.first⟩

/-- bool iterator_has_next(list_iterator_t *iter). -/
def iterator_has_next (s : State) (iter : list_iterator_t) : Bool :=
  (s.heap.mem iter.current).next != 0

/-- elem_t iterator_next(list_iterator_t *iter): advance current to its
successor and return that node's value.  Returns the new iterator and the value. -/
def iterator_next (s : State) (iter : list_iterator_t) : list_iterator_t × elem_t :=
  let c := (s.heap.mem iter.current).next
  (⟨c⟩, (s.heap.mem c).value)

/-- void iterator_insert(list_iterator_t *iter, const elem_t element):
splice a new link between current and its successor; on allocation failure
print and return with nothing changed.  The iterator's current is untouched. -/
def iterator_insert (ok : Bool) (s : State) (iter : list_iterator_t) (element : elem_t) : State :=
  let p := link_new ok s.heap element ((s.heap.mem iter.current).next)
  if p.1 = 0 then s
  else ⟨p.2.writeNext iter.current p.1, s.lst⟩

/-- elem_t iterator_remove(list_iterator_t *iter): detach current->next,
relink current past it, free it, return its value. -/
def iterator_remove (s : State) (iter : list_iterator_t) : State × elem_t :=
  let ltr := (s.heap.mem iter.current).next
  let value_removed := (s.heap.mem ltr).value
  (⟨s.heap.writeNext iter.current ((s.heap.mem ltr).next), s.lst⟩, value_removed)

/-- void iterator_reset(list_iterator_t *iter): current = list->first. -/
def iterator_reset (s : State) (_iter : list_iterator_t) : list_iterator_t :=
  ⟨s.lst.first⟩

/-- elem_t iterator_current(list_iterator_t *iter): value of current->next,
or the no-value element with .i = -1 when there is no next link. -/
def iterator_current (s : State) (iter : list_iterator_t) : elem_t :=
  if iterator_has_next s iter then (s.heap.mem ((s.heap.mem iter.current).next)).value
  else (-1 : Int)

/-- size_t linked_list_size(list_t *list): the cached counter. -/
def linked_list_size (s : State) : Nat :=
  s.lst.size

/-- void linked_list_append(list_t *list, const elem_t value). -/
def linked_list_append (ok : Bool) (s : State) (value : elem_t) : State :=
  let p := link_new ok s.heap value 0
  if p.1 = 0 then s
  else
    ⟨p.2.writeNext s.lst.last p.1,
     { s.lst with last := p.1, size := (s.lst.size + 1) % size_t_mod }⟩

/-- void linked_list_prepend(list_t *list, const elem_t value). -/
def linked_list_prepend (ok : Bool) (s : State) (value : elem_t) : State :=
  let p := link_new ok s.heap value ((s.heap.mem s.lst.first).next)
  if p.1 = 0 then s
  else
    let lst1 := if s.lst.first = s.lst.last then { s.lst with last := p.1 } else s.lst
    ⟨p.2.writeNext s.lst.first p.1, { lst1 with size := (s.lst.size + 1) % size_t_mod }⟩

/-- The for-loop advancing an iterator n times with iterator_next. -/
def advance (s : State) (iter : list_iterator_t) : Nat → list_iterator_t
  | 0 => iter
  | n + 1 => advance s (iterator_next s iter).1 n

/-- void linked_list_insert(list_t *list, const int index, const elem_t value).
Note that in the general branch the C increments list->size unconditionally
after iterator_insert, even when the allocation inside iterator_insert failed. -/
def linked_list_insert (ok : Bool) (s : State) (index : Int) (value : elem_t) : State :=
  let size := linked_list_size s
  let adjusted_index := list_inner_adjust_index index size
  let valid_index := toSizeT adjusted_index
  if adjusted_index = -1 then s
  else if valid_index = 0 then linked_list_prepend ok s value
  else if valid_index = size then linked_list_append ok s value
  else
    let iter := advance s (list_iterator s) valid_index
    let s1 := iterator_insert ok s iter value
    ⟨s1.heap, { s1.lst with size := (s1.lst.size + 1) % size_t_mod }⟩

/-- elem_t linked_list_remove(list_t *list, const int index).
The C stores the size in an int, computes upper_limit = size - 1 as an int,
and passes it as the size_t upper bound of list_inner_adjust_index. -/
def linked_list_remove (s : State) (index : Int) : State × elem_t :=
  let size : Int := toInt32 (linked_list_size s)
  let upper_limit : Int := toInt32 (size - 1)
  let adjusted_index := list_inner_adjust_index index (toSizeT upper_limit)
  let valid_index := toSizeT adjusted_index
  if adjusted_index = -1 then (s, (-1 : Int))
  else
    let iter := advance s (list_iterator s) valid_index
    let p := iterator_remove s iter
    (⟨p.1.heap, { p.1.lst with size := (p.1.lst.size + (size_t_mod - 1)) % size_t_mod }⟩, p.2)

/-- elem_t linked_list_get(list_t *list, const int index): same bound
convention as remove; reads via iterator_current, never mutating. -/
def linked_list_get (s : State) (index : Int) : elem_t :=
  let size : Int := toInt32 (linked_list_size s)
  let upper_limit : Int := toInt32 (size - 1)
  let adjusted_index := list_inner_adjust_index index (toSizeT upper_limit)
  let valid_index := toSizeT adjusted_index
  if adjusted_index = -1 then (-1 : Int)
  else iterator_current s (advance s (list_iterator s) valid_index)

/-- bool linked_list_is_empty(list_t *list). -/
def linked_list_is_empty (s : State) : Bool :=
  linked_list_size s == 0

/-- The while-loop of linked_list_calculate_size (fuelled). -/
def calculate_size_loop (s : State) : Nat → list_iterator_t → Nat → Nat
  | 0, _, size => size
  | fuel + 1, iter, size =>
    if iterator_has_next s iter then
      calculate_size_loop s fuel (iterator_next s iter).1 ((size + 1) % size_t_mod)
    else size

/-- size_t linked_list_calculate_size(list_t *list): recount by traversal. -/
def linked_list_calculate_size (fuel : Nat) (s : State) : Nat :=
  calculate_size_loop s fuel (list_iterator s) 0

/-- The while-loop of linked_list_clear (fuelled): remove the front node,
reset the iterator, decrement size, until no next link remains. -/
def clear_loop : Nat → State → list_iterator_t → State
  | 0, s, _ => s
  | fuel + 1, s, iter =>
    if iterator_has_next s iter then
      let p := iterator_remove s iter
      let iter1 := iterator_reset p.1 iter
      let s1 : State := ⟨p.1.heap, { p.1.lst with size := (p.1.lst.size + (size_t_mod - 1)) % size_t_mod }⟩
      clear_loop fuel s1 iter1
    else s

/-- void linked_list_clear(list_t *list). -/
def linked_list_clear (fuel : Nat) (s : State) : State :=
  if !linked_list_is_empty s then clear_loop fuel s (list_iterator s) else s

/-- The while-loop of linked_list_contains (fuelled), instrumented with the
list of argument pairs passed to the equality comparator, in call order. -/
def contains_loop (s : State) (element : elem_t) : Nat → list_iterator_t → Bool × List (elem_t × elem_t)
  | 0, _ => (false, [])
  | fuel + 1, iter =>
    if iterator_has_next s iter then
      let current_value := (iterator_next s iter).2
      if s.lst.eqfun current_value element then (true, [(current_value, element)])
      else
        let r := contains_loop s element fuel (iterator_next s iter).1
        (r.1, (current_value, element) :: r.2)
    else (false, [])

/-- bool linked_list_contains(list_t *list, const elem_t element),
instrumented with the comparator invocations. -/
def linked_list_contains (fuel : Nat) (s : State) (element : elem_t) : Bool × List (elem_t × elem_t) :=
  contains_loop s element fuel (list_iterator s)

/-- The while-loop of linked_list_all (fuelled), instrumented with the list of
elements the predicate was invoked on.  The loop body is
result = result && prop(iterator_current(iter), extra); iterator_next(iter);
and the C && operator evaluates prop only when result is still true. -/
def all_loop {ε : Type} (s : State) (prop : elem_t → ε → Bool) (extra : ε) :
    Nat → list_iterator_t → Bool → Bool × List elem_t
  | 0, _, result => (result, [])
  | fuel + 1, iter, result =>
    if iterator_has_next s iter then
      let step : Bool × List elem_t :=
        if result then (prop (iterator_current s iter) extra, [iterator_current s iter])
        else (false, [])
      let r := all_loop s prop extra fuel (iterator_next s iter).1 step.1
      (r.1, step.2 ++ r.2)
    else (result, [])

/-- bool linked_list_all(list_t *list, predicate prop, const void *extra),
instrumented with the predicate invocations. -/
def linked_list_all {ε : Type} (fuel : Nat) (s : State) (prop : elem_t → ε → Bool) (extra : ε) :
    Bool × List elem_t :=
  all_loop s prop extra fuel (list_iterator s) true

/-- The for-loop of linked_list_apply_to_all (fuelled): the cursor starts at
list->first (the sentinel) and runs until NULL, replacing each value in place.
Instrumented with the values the transform was invoked on, in call order. -/
def apply_to_all_loop {ε : Type} (f : elem_t → ε → elem_t) (extra : ε) :
    Nat → Heap → Nat → Heap × List elem_t
  | 0, h, _ => (h, [])
  | fuel + 1, h, cursor =>
    if cursor = 0 then (h, [])
    else
      let v := (h.mem cursor).value
      let h1 := h.writeValue cursor (f v extra)
      let r := apply_to_all_loop f extra fuel h1 ((h1.mem cursor).next)
      (r.1, v :: r.2)

/-- void linked_list_apply_to_all(list_t *list, apply_function fun, const void *extra),
instrumented with the transform invocations.  The C cursor starts at
list->first, which is the sentinel, not the first data node. -/
def linked_list_apply_to_all {ε : Type} (fuel : Nat) (s : State) (f : elem_t → ε → elem_t)
    (extra : ε) : State × List elem_t :=
  let r := apply_to_all_loop f extra fuel s.heap s.lst.first
  (⟨r.1, s.lst⟩, r.2)

/-! ### Chain representation predicates -/

/-- chainB h a addrs: from pointer a the heap links exactly through the
addresses in addrs, in order, ending in NULL (0). -/
def chainB (h : Heap) : Nat → List Nat → Bool
  | a, [] => a == 0
  | a, b :: bs => a == b && (a != 0) && chainB h (h.mem a).next bs

/-- The element values stored at a list of addresses. -/
def chainVals (h : Heap) (addrs : List Nat) : List elem_t :=
  addrs.map (fun a => (h.mem a).value)

/-- Well-formed list state: the data nodes reachable from the sentinel are
exactly addrs, the cached size matches, last points at the final data node
(or the sentinel when empty), all addresses are live (below fresh), distinct,
and do not include the sentinel. -/
def WF (s : State) (addrs : List Nat) : Prop :=
  chainB s.heap ((s.heap.mem s.lst.first).next) addrs = true ∧
  s.lst.size = addrs.length ∧
  addrs.length < 2 ^ 31 - 1 ∧
  s.lst.last = (s.lst.first :: addrs).getD addrs.length 0 ∧
  0 < s.lst.first ∧
  s.lst.first < s.heap.fresh ∧
  (∀ a ∈ addrs, a < s.heap.fresh) ∧
  s.lst.first ∉ addrs ∧
  addrs.Nodup

/-- The heap produced by splicing a fresh node carrying v directly after the
node at address q: allocate the node with successor q->next, then set
q->next to the fresh address.  Every successful insertion path of the C code
(prepend, append, iterator_insert) produces exactly this heap for its q. -/
def spliceHeap (h : Heap) (q : Nat) (v : elem_t) : Heap :=
  (h.alloc ⟨v, (h.mem q).next⟩).2.writeNext q h.fresh

/-! ### Concrete example states used in the claim theorems and witnesses -/

/-- Integer equality comparator, as the test suite's compare_int_elements. -/
def eqI : elem_t → elem_t → Bool := fun a b => a == b

/-- The empty list produced by linked_list_create. -/
def exL0 : State := linked_list_create eqI

/-- exL0 with 10 appended. -/
def exL1 : State := linked_list_append true exL0 10

/-- exL1 with 20 appended: the list [10, 20]. -/
def exL2 : State := linked_list_append true exL1 20

/-- exL2 with 30 appended: the list [10, 20, 30]. -/
def exL3 : State := linked_list_append true exL2 30

/-- Removing index 0 from the one-element list exL1: the list becomes empty,
but linked_list_remove never updates last. -/
def remB : State := (linked_list_remove exL1 0).1

/-- Appending 7 after remB: the node is attached after the stale last pointer,
unreachable from the sentinel. -/
def appAfter : State := linked_list_append true remB 7

/-- linked_list_remove applied to the empty list with index 0. -/
def remEmpty : State × elem_t := linked_list_remove exL0 0

/-- linked_list_insert at the interior index 1 of [10, 20] with a failing
node allocation. -/
def insFail : State := linked_list_insert false exL2 1 99

/-- The list holding the single legitimately stored value -1. -/
def exM1 : State := linked_list_append true exL0 (-1)

/-! ### Theorems -/

/-- Claim C1.  The claimed invariant that the tail reference is the sentinel
iff the list is empty is violated by the code: linked_list_remove never
updates last, so removing the only element of a one-element list leaves the
list empty while last still points at the detached (freed) node rather than
the sentinel. -/
theorem remove_leaves_stale_tail :
    linked_list_is_empty remB = true ∧ remB.lst.last ≠ remB.lst.first := by
  constructor
  · decide
  · decide

/-- Claim C2.  linked_list_remove on the empty list with index 0 does not
take the bad-index branch: the upper bound size - 1 = -1 is converted to
size_t as 2^64 - 1, so list_inner_adjust_index returns 0.  The code then
proceeds, dereferences the sentinel's NULL successor (undefined behaviour in
C; the model reads the dummy NULL cell), and decrements the size_t size from
0 to 2^64 - 1, so the list's size does not stay unchanged. -/
theorem remove_empty_guard_bypassed :
    list_inner_adjust_index 0 (toSizeT (toInt32 (toInt32 (linked_list_size exL0) - 1))) = 0 ∧
    linked_list_size remEmpty.1 = 2 ^ 64 - 1 := by
  constructor
  · decide
  · decide

/-- Claim C3.  When node allocation fails in the general mid-list branch of
linked_list_insert, the list contents are unchanged but the cached size is
still incremented (from 2 to 3 on the list [10, 20]), because the C
increments list->size unconditionally after iterator_insert returns. -/
theorem insert_alloc_fail_size_changed :
    linked_list_size insFail = 3 ∧
    linked_list_calculate_size 100 insFail = 2 ∧
    linked_list_get insFail 0 = 10 ∧
    linked_list_get insFail 1 = 20 ∧
    linked_list_size exL2 = 2 := by
  refine ⟨?_, ?_, ?_, ?_, ?_⟩ <;> decide

/-- Claim C4.  After the completed operations append 5, remove 0, append 7
the cached size is 1 but no data node is reachable from the sentinel:
remove left last pointing at the detached node, so the second append
attached its node behind that stale pointer instead of the sentinel chain.
Hence linked_list_calculate_size disagrees with linked_list_size. -/
theorem size_cache_desync :
    linked_list_size appAfter = 1 ∧ linked_list_calculate_size 100 appAfter = 0 := by
  constructor
  · decide
  · decide

/-- Claim C6.  linked_list_apply_to_all starts its cursor at list->first,
which is the sentinel, so on the list [10, 20] the transform is invoked
three times - once on the sentinel's (non-stored) value 0 and once per
stored value - rather than exactly size = 2 times on the stored values. -/
theorem apply_to_all_visits_sentinel :
    (linked_list_apply_to_all 100 exL2 (fun v (_ : Unit) => v + 1) ()).2 = [0, 10, 20] ∧
    linked_list_size exL2 = 2 := by
  constructor
  · decide
  · decide

/-- Claim C8.  After a successful iterator_insert the iterator's current
field is untouched (the operation returns only a new state, the same
iterator value is reused), iterator_has_next is true, and an immediately
following iterator_next yields exactly the inserted value, landing the
cursor on the freshly allocated node. -/
theorem iterator_insert_then_next_yields (s : State) (iter : list_iterator_t) (v : elem_t)
    (hcur : iter.current < s.heap.fresh) :
    iterator_has_next (iterator_insert true s iter v) iter = true ∧
    (iterator_next (iterator_insert true s iter v) iter).2 = v ∧
    (iterator_next (iterator_insert true s iter v) iter).1.current = s.heap.fresh := by
  have hf : s.heap.fresh ≠ 0 := by omega
  have hne : iter.current ≠ s.heap.fresh := Nat.ne_of_lt hcur
  simp [iterator_insert, link_new, Heap.alloc, Heap.writeNext, Heap.write,
    iterator_has_next, iterator_next, hf, hne, Ne.symm hne]

/-- Witness for claim C8 at the concrete list [10, 20] with the iterator
standing on the sentinel (address 1). -/
theorem iterator_insert_then_next_yields_witness :
    iterator_has_next (iterator_insert true exL2 ⟨1⟩ 77) ⟨1⟩ = true ∧
    (iterator_next (iterator_insert true exL2 ⟨1⟩ 77) ⟨1⟩).2 = 77 ∧
    (iterator_next (iterator_insert true exL2 ⟨1⟩ 77) ⟨1⟩).1.current = exL2.heap.fresh :=
  iterator_insert_then_next_yields exL2 ⟨1⟩ 77 (by decide)

/-- Claim C9.  Whenever linked_list_get or linked_list_remove takes the
bad-index branch, and whenever iterator_current is called with no next
element, each returns the same concrete marker, the element whose int member
is -1; and reading back the legitimately stored element -1 (list exM1)
produces the very same value, so the marker is indistinguishable from it. -/
theorem no_value_marker_shared :
    (∀ (s : State) (i : Int),
        list_inner_adjust_index i (toSizeT (toInt32 (toInt32 (linked_list_size s) - 1))) = -1 →
        linked_list_get s i = -1) ∧
    (∀ (s : State) (i : Int),
        list_inner_adjust_index i (toSizeT (toInt32 (toInt32 (linked_list_size s) - 1))) = -1 →
        (linked_list_remove s i).2 = -1) ∧
    (∀ (s : State) (iter : list_iterator_t),
        iterator_has_next s iter = false → iterator_current s iter = -1) ∧
    linked_list_get exM1 0 = -1 := by
  refine ⟨?_, ?_, ?_, by decide⟩
  · intro s i h
    simp [linked_list_get, h]
  · intro s i h
    simp [linked_list_remove, h]
  · intro s iter h
    simp [iterator_current, h]

/-- Witness for claim C9: each universal conjunct applied at a concrete
input - the out-of-range index 5 on the two-element list [10, 20], and an
iterator with no next element on the empty list. -/
theorem no_value_marker_shared_witness :
    linked_list_get exL2 5 = -1 ∧ (linked_list_remove exL2 5).2 = -1 ∧
    iterator_current exL0 ⟨1⟩ = -1 :=
  ⟨no_value_marker_shared.1 exL2 5 (by decide),
   no_value_marker_shared.2.1 exL2 5 (by decide),
   no_value_marker_shared.2.2.1 exL0 ⟨1⟩ (by decide)⟩

theorem Heap.mem_write_of_ne (h : Heap) (p : Nat) (l : link_t) (b : Nat) (hb : b ≠ p) :
    (h.write p l).mem b = h.mem b := by
  simp [Heap.write, hb]

theorem chainB_congr (h1 h2 : Heap) : ∀ (addrs : List Nat) (a : Nat),
    (∀ b ∈ addrs, h1.mem b = h2.mem b) → chainB h1 a addrs = chainB h2 a addrs := by
  intro addrs
  induction addrs with
  | nil => intro a _; rfl
  | cons b bs ih =>
    intro a hmem
    by_cases hab : a = b
    · subst hab
      simp only [chainB]
      rw [hmem a (by simp), ih _ (fun x hx => hmem x (by simp [hx]))]
    · have hf : (a == b) = false := by simpa using hab
      simp only [chainB, hf, Bool.false_and]

theorem chainVals_congr (h1 h2 : Heap) (addrs : List Nat)
    (hmem : ∀ b ∈ addrs, h1.mem b = h2.mem b) : chainVals h1 addrs = chainVals h2 addrs := by
  simp only [chainVals]
  exact List.map_congr_left (fun b hb => by rw [hmem b hb])

theorem chainB_cons_iff (h : Heap) (a b : Nat) (bs : List Nat) :
    chainB h a (b :: bs) = true ↔ a = b ∧ a ≠ 0 ∧ chainB h (h.mem a).next bs = true := by
  simp [chainB, Bool.and_eq_true, beq_iff_eq, bne_iff_ne, and_assoc]

theorem chainB_nil_iff (h : Heap) (a : Nat) : chainB h a [] = true ↔ a = 0 := by
  simp [chainB, beq_iff_eq]

theorem advance_current (h : Heap) (lst : list_t) : ∀ (j : Nat) (addrs : List Nat) (c : Nat),
    chainB h ((h.mem c).next) addrs = true → j ≤ addrs.length →
    (advance ⟨h, lst⟩ ⟨c⟩ j).current = (c :: addrs).getD j 0 := by
  intro j
  induction j with
  | zero => intro addrs c _ _; rfl
  | succ j ih =>
    intro addrs c hc hj
    match addrs, hj with
    | b :: bs, hj =>
      obtain ⟨h1, h2, h3⟩ := (chainB_cons_iff h _ b bs).mp hc
      show (advance ⟨h, lst⟩ (iterator_next ⟨h, lst⟩ ⟨c⟩).1 j).current = _
      have : (iterator_next ⟨h, lst⟩ ⟨c⟩).1 = ⟨b⟩ := by
        simp [iterator_next, h1]
      rw [this, ih bs b (h1 ▸ h3) (by simpa using hj)]
      simp [List.getD_cons_succ]

theorem walk_current (h : Heap) (lst : list_t) : ∀ (j : Nat) (addrs : List Nat) (c : Nat),
    chainB h ((h.mem c).next) addrs = true → j < addrs.length →
    iterator_current ⟨h, lst⟩ (advance ⟨h, lst⟩ ⟨c⟩ j) = (chainVals h addrs).getD j 0 := by
  intro j
  induction j with
  | zero =>
    intro addrs c hc hj
    match addrs, hj with
    | b :: bs, _ =>
      obtain ⟨h1, h2, h3⟩ := (chainB_cons_iff h _ b bs).mp hc
      have h2b : b ≠ 0 := h1 ▸ h2
      simp [advance, iterator_current, iterator_has_next, h1, h2b, chainVals, bne_iff_ne]
  | succ j ih =>
    intro addrs c hc hj
    match addrs, hj with
    | b :: bs, hj =>
      obtain ⟨h1, h2, h3⟩ := (chainB_cons_iff h _ b bs).mp hc
      show iterator_current ⟨h, lst⟩ (advance ⟨h, lst⟩ (iterator_next ⟨h, lst⟩ ⟨c⟩).1 j) = _
      have hit : (iterator_next ⟨h, lst⟩ ⟨c⟩).1 = ⟨b⟩ := by
        simp [iterator_next, h1]
      rw [hit, ih bs b (h1 ▸ h3) (by simpa using hj)]
      simp [chainVals, List.getD_cons_succ]

theorem contains_loop_spec (h : Heap) (lst : list_t) (v : elem_t) :
    ∀ (addrs : List Nat) (c : Nat) (fuel : Nat),
    chainB h ((h.mem c).next) addrs = true → addrs.length ≤ fuel →
    contains_loop ⟨h, lst⟩ v fuel ⟨c⟩ =
      ((chainVals h addrs).any (fun x => lst.eqfun x v),
       ((chainVals h addrs).take ((chainVals h addrs).findIdx (fun x => lst.eqfun x v) + 1)).map
         (fun x => (x, v))) := by
  intro addrs
  induction addrs with
  | nil =>
    intro c fuel hc _
    have h0 : (h.mem c).next = 0 := (chainB_nil_iff h _).mp hc
    match fuel with
    | 0 => simp [contains_loop, chainVals]
    | fuel + 1 => simp [contains_loop, iterator_has_next, h0, chainVals]
  | cons b bs ih =>
    intro c fuel hc hfuel
    obtain ⟨h1, h2, h3⟩ := (chainB_cons_iff h _ b bs).mp hc
    have h2b : b ≠ 0 := h1 ▸ h2
    match fuel, hfuel with
    | fuel + 1, hfuel =>
      have hhn : iterator_has_next ⟨h, lst⟩ ⟨c⟩ = true := by
        simp [iterator_has_next, h1, h2b]
      have hnext1 : (iterator_next ⟨h, lst⟩ ⟨c⟩).1 = ⟨b⟩ := by simp [iterator_next, h1]
      have hnext2 : (iterator_next ⟨h, lst⟩ ⟨c⟩).2 = (h.mem b).value := by
        simp [iterator_next, h1]
      by_cases heq : lst.eqfun ((h.mem b).value) v
      · simp [contains_loop, hhn, hnext1, hnext2, heq, chainVals, List.findIdx_cons]
      · have hih := ih b fuel (h1 ▸ h3) (by simpa using hfuel)
        simp [contains_loop, hhn, hnext1, hnext2, heq, hih, chainVals, List.findIdx_cons]

theorem all_loop_false {ε : Type} (h : Heap) (lst : list_t) (prop : elem_t → ε → Bool)
    (extra : ε) :
    ∀ (addrs : List Nat) (c : Nat) (fuel : Nat),
    chainB h ((h.mem c).next) addrs = true → addrs.length ≤ fuel →
    all_loop ⟨h, lst⟩ prop extra fuel ⟨c⟩ false = (false, []) := by
  intro addrs
  induction addrs with
  | nil =>
    intro c fuel hc _
    have h0 : (h.mem c).next = 0 := (chainB_nil_iff h _).mp hc
    match fuel with
    | 0 => simp [all_loop]
    | fuel + 1 => simp [all_loop, iterator_has_next, h0]
  | cons b bs ih =>
    intro c fuel hc hfuel
    obtain ⟨h1, h2, h3⟩ := (chainB_cons_iff h _ b bs).mp hc
    have h2b : b ≠ 0 := h1 ▸ h2
    match fuel, hfuel with
    | fuel + 1, hfuel =>
      have hhn : iterator_has_next ⟨h, lst⟩ ⟨c⟩ = true := by
        simp [iterator_has_next, h1, h2b]
      have hnext1 : (iterator_next ⟨h, lst⟩ ⟨c⟩).1 = ⟨b⟩ := by simp [iterator_next, h1]
      have hih := ih b fuel (h1 ▸ h3) (by simpa using hfuel)
      simp [all_loop, hhn, hnext1, hih]

theorem all_loop_true {ε : Type} (h : Heap) (lst : list_t) (prop : elem_t → ε → Bool)
    (extra : ε) :
    ∀ (addrs : List Nat) (c : Nat) (fuel : Nat),
    chainB h ((h.mem c).next) addrs = true → addrs.length ≤ fuel →
    all_loop ⟨h, lst⟩ prop extra fuel ⟨c⟩ true =
      ((chainVals h addrs).all (fun x => prop x extra),
       (chainVals h addrs).take
         ((chainVals h addrs).findIdx (fun x => !(prop x extra)) + 1)) := by
  intro addrs
  induction addrs with
  | nil =>
    intro c fuel hc _
    have h0 : (h.mem c).next = 0 := (chainB_nil_iff h _).mp hc
    match fuel with
    | 0 => simp [all_loop, chainVals]
    | fuel + 1 => simp [all_loop, iterator_has_next, h0, chainVals]
  | cons b bs ih =>
    intro c fuel hc hfuel
    obtain ⟨h1, h2, h3⟩ := (chainB_cons_iff h _ b bs).mp hc
    have h2b : b ≠ 0 := h1 ▸ h2
    match fuel, hfuel with
    | fuel + 1, hfuel =>
      have hhn : iterator_has_next ⟨h, lst⟩ ⟨c⟩ = true := by
        simp [iterator_has_next, h1, h2b]
      have hnext1 : (iterator_next ⟨h, lst⟩ ⟨c⟩).1 = ⟨b⟩ := by simp [iterator_next, h1]
      have hcur : iterator_current ⟨h, lst⟩ ⟨c⟩ = (h.mem b).value := by
        simp [iterator_current, iterator_has_next, h1, h2b]
      by_cases hp : prop ((h.mem b).value) extra
      · have hih := ih b fuel (h1 ▸ h3) (by simpa using hfuel)
        simp [all_loop, hhn, hnext1, hcur, hp, hih, chainVals, List.findIdx_cons]
      · have hih := all_loop_false h lst prop extra bs b fuel (h1 ▸ h3) (by simpa using hfuel)
        simp [all_loop, hhn, hnext1, hcur, hp, hih, chainVals, List.findIdx_cons]

/-- Claim C5.  linked_list_all short-circuits: its result is the universal
quantification of the predicate over the stored values, and the predicate is
invoked exactly on the prefix of stored values up to and including the first
failing one (all values when none fails, none after the first failure,
vacuously none on the empty list), because the C && operator stops invoking
prop once the accumulator is false. -/
theorem all_short_circuits {ε : Type} (fuel : Nat) (s : State) (prop : elem_t → ε → Bool)
    (extra : ε) (addrs : List Nat)
    (hc : chainB s.heap ((s.heap.mem s.lst.first).next) addrs = true)
    (hfuel : addrs.length ≤ fuel) :
    linked_list_all fuel s prop extra =
      ((chainVals s.heap addrs).all (fun x => prop x extra),
       (chainVals s.heap addrs).take
         ((chainVals s.heap addrs).findIdx (fun x => !(prop x extra)) + 1)) := by
  have hmain := all_loop_true s.heap s.lst prop extra addrs s.lst.first fuel hc hfuel
  simpa [linked_list_all, list_iterator] using hmain

/-- Witness for claim C5 on the concrete list [10, 20, 30] with the
predicate v < 15, which fails first at 20: the predicate is applied to 10
and 20 only, and the result is false. -/
theorem all_short_circuits_witness :
    linked_list_all 100 exL3 (fun v (_ : Unit) => decide (v < 15)) () =
      ((chainVals exL3.heap [2, 3, 4]).all (fun x => decide (x < 15)),
       (chainVals exL3.heap [2, 3, 4]).take
         ((chainVals exL3.heap [2, 3, 4]).findIdx (fun x => !(decide (x < 15))) + 1)) :=
  all_short_circuits 100 exL3 (fun v (_ : Unit) => decide (v < 15)) () [2, 3, 4]
    (by decide) (by decide)

/-- Claim C10.  linked_list_contains invokes the stored equality comparator
with the stored element as first argument and the sought value as second, on
the stored values front to back, stopping after the first invocation that
returns true: the invocation list is the prefix of stored values up to and
including the first match, each paired as (stored, sought), and the result
is the existential quantification. -/
theorem contains_comparator_protocol (fuel : Nat) (s : State) (v : elem_t) (addrs : List Nat)
    (hc : chainB s.heap ((s.heap.mem s.lst.first).next) addrs = true)
    (hfuel : addrs.length ≤ fuel) :
    linked_list_contains fuel s v =
      ((chainVals s.heap addrs).any (fun x => s.lst.eqfun x v),
       ((chainVals s.heap addrs).take
         ((chainVals s.heap addrs).findIdx (fun x => s.lst.eqfun x v) + 1)).map
           (fun x => (x, v))) := by
  have hmain := contains_loop_spec s.heap s.lst v addrs s.lst.first fuel hc hfuel
  simpa [linked_list_contains, list_iterator] using hmain

/-- Witness for claim C10 on the concrete list [10, 20, 30] seeking 20:
the comparator is invoked on (10, 20) and (20, 20) only and the result is
true. -/
theorem contains_comparator_protocol_witness :
    linked_list_contains 100 exL3 20 =
      ((chainVals exL3.heap [2, 3, 4]).any (fun x => exL3.lst.eqfun x 20),
       ((chainVals exL3.heap [2, 3, 4]).take
         ((chainVals exL3.heap [2, 3, 4]).findIdx (fun x => exL3.lst.eqfun x 20) + 1)).map
           (fun x => (x, 20))) :=
  contains_comparator_protocol 100 exL3 20 [2, 3, 4] (by decide) (by decide)

theorem toInt32_small (x : Int) (h0 : 0 ≤ x) (h1 : x < 2 ^ 31) : toInt32 x = x := by
  unfold toInt32
  rw [Int.emod_eq_of_lt (by omega) (by omega)]
  omega

theorem toSizeT_small (x : Int) (h0 : 0 ≤ x) (h1 : x < 2 ^ 64) : toSizeT x = x.toNat := by
  unfold toSizeT size_t_mod
  rw [Int.emod_eq_of_lt h0 (by exact_mod_cast h1)]

theorem toSizeT_ofNat (n : Nat) (h : n < 2 ^ 64) : toSizeT (n : Int) = n := by
  rw [toSizeT_small n (by omega) (by exact_mod_cast h)]
  simp

theorem adjust_index_of_le (i b : Nat) (hib : i ≤ b) (hb : b < 2 ^ 64) :
    list_inner_adjust_index (i : Int) b = i := by
  unfold list_inner_adjust_index
  have h0 : ¬((i : Int) < 0) := by omega
  simp only [h0, if_false]
  rw [toSizeT_ofNat i (by omega)]
  simp [Nat.not_lt.mpr hib, h0]

theorem chainB_getD_last (h : Heap) :
    ∀ (addrs : List Nat) (x c : Nat), chainB h x addrs = true → addrs ≠ [] →
    (h.mem ((c :: addrs).getD addrs.length 0)).next = 0 := by
  intro addrs
  induction addrs with
  | nil => intro x c _ hne; exact absurd rfl hne
  | cons b bs ih =>
    intro x c hc _
    obtain ⟨h1, h2, h3⟩ := (chainB_cons_iff h x b bs).mp hc
    subst h1
    match bs with
    | [] =>
      have h0 := (chainB_nil_iff h _).mp h3
      simpa using h0
    | b2 :: bs2 =>
      have := ih (h.mem x).next x h3 (by simp)
      simpa using this

theorem getD_mem {α : Type} (l : List α) (i : Nat) (d : α) (hi : i < l.length) :
    l.getD i d ∈ l := by
  rw [List.getD_eq_getElem l d hi]
  exact List.getElem_mem hi

theorem getD_append_length {α : Type} (v d : α) (l2 : List α) :
    ∀ (l1 : List α), (l1 ++ v :: l2).getD l1.length d = v := by
  intro l1
  induction l1 with
  | nil => rfl
  | cons a l ih => simpa using ih

theorem spliceHeap_mem_q (h : Heap) (q : Nat) (v : elem_t) (hq : q ≠ h.fresh) :
    (spliceHeap h q v).mem q = ⟨(h.mem q).value, h.fresh⟩ := by
  simp [spliceHeap, Heap.alloc, Heap.writeNext, Heap.write, hq]

theorem spliceHeap_mem_fresh (h : Heap) (q : Nat) (v : elem_t) (hq : q ≠ h.fresh) :
    (spliceHeap h q v).mem h.fresh = ⟨v, (h.mem q).next⟩ := by
  simp [spliceHeap, Heap.alloc, Heap.writeNext, Heap.write, hq, Ne.symm hq]

theorem spliceHeap_mem_other (h : Heap) (q : Nat) (v : elem_t) (b : Nat)
    (hb1 : b ≠ q) (hb2 : b ≠ h.fresh) : (spliceHeap h q v).mem b = h.mem b := by
  simp [spliceHeap, Heap.alloc, Heap.writeNext, Heap.write, hb1, hb2]

theorem chainB_splice (h : Heap) (v : elem_t) :
    ∀ (i : Nat) (addrs : List Nat) (first : Nat),
    chainB h ((h.mem first).next) addrs = true →
    i ≤ addrs.length →
    0 < first → first < h.fresh →
    (∀ a ∈ addrs, a < h.fresh) →
    first ∉ addrs → addrs.Nodup →
    chainB (spliceHeap h ((first :: addrs).getD i 0) v)
      (((spliceHeap h ((first :: addrs).getD i 0) v).mem first).next)
      (addrs.take i ++ h.fresh :: addrs.drop i) = true := by
  intro i
  induction i with
  | zero =>
    intro addrs first hc _ h0f hff hbb hni hnd
    have hqf : first ≠ h.fresh := Nat.ne_of_lt hff
    rw [List.getD_cons_zero, List.take_zero, List.drop_zero, List.nil_append]
    rw [chainB_cons_iff]
    have hmemq := spliceHeap_mem_q h first v hqf
    refine ⟨by rw [hmemq], by simp [hmemq]; omega, ?_⟩
    rw [hmemq]
    show chainB _ ((spliceHeap h first v).mem h.fresh).next addrs = true
    rw [spliceHeap_mem_fresh h first v hqf]
    show chainB _ ((h.mem first).next) addrs = true
    rw [chainB_congr (spliceHeap h first v) h addrs _ ?hmem]
    · exact hc
    · intro b hb
      exact spliceHeap_mem_other h first v b
        (fun he => hni (he ▸ hb)) (Nat.ne_of_lt (hbb b hb))
  | succ i ih =>
    intro addrs first hc hi h0f hff hbb hni hnd
    match addrs, hi with
    | b :: bs, hi =>
      obtain ⟨h1, h2, h3⟩ := (chainB_cons_iff h _ b bs).mp hc
      have h2b : b ≠ 0 := h1 ▸ h2
      have hbf : b < h.fresh := hbb b (by simp)
      have hq : ((first :: b :: bs).getD (i + 1) 0) = ((b :: bs).getD i 0) := by
        simp [List.getD_cons_succ]
      have hqmem : (b :: bs).getD i 0 ∈ (b :: bs) :=
        getD_mem _ i 0 (by simp only [List.length_cons] at hi ⊢; omega)
      have hfq : first ≠ (b :: bs).getD i 0 := fun he => hni (he ▸ hqmem)
      have hqlt : (b :: bs).getD i 0 < h.fresh := hbb _ hqmem
      have hihres := ih bs b (h1 ▸ h3) (by simpa using hi)
        (Nat.pos_of_ne_zero h2b) hbf
        (fun a ha => hbb a (by simp [ha]))
        ((List.nodup_cons.mp hnd).1) ((List.nodup_cons.mp hnd).2)
      rw [hq]
      rw [List.take_succ_cons, List.drop_succ_cons, List.cons_append]
      rw [chainB_cons_iff]
      have hmemf : (spliceHeap h ((b :: bs).getD i 0) v).mem first = h.mem first :=
        spliceHeap_mem_other h _ v first hfq (Nat.ne_of_lt hff)
      exact ⟨by rw [hmemf]; exact h1, by rw [hmemf]; exact h2, by rw [hmemf, h1]; exact hihres⟩

theorem spliceHeap_value (h : Heap) (q : Nat) (v : elem_t) (x : Nat)
    (hx : x < h.fresh) (hq : q < h.fresh) :
    ((spliceHeap h q v).mem x).value = (h.mem x).value := by
  by_cases hxq : x = q
  · subst hxq
    rw [spliceHeap_mem_q h x v (Nat.ne_of_lt hq)]
  · rw [spliceHeap_mem_other h q v x hxq (Nat.ne_of_lt hx)]

theorem chainVals_splice (h : Heap) (q : Nat) (v : elem_t) (addrs : List Nat) (i : Nat)
    (hq : q < h.fresh) (hbb : ∀ a ∈ addrs, a < h.fresh) :
    chainVals (spliceHeap h q v) (addrs.take i ++ h.fresh :: addrs.drop i) =
      (chainVals h addrs).take i ++ v :: (chainVals h addrs).drop i := by
  have hmap : ∀ (l : List Nat), (∀ x ∈ l, x < h.fresh) →
      l.map (fun a => ((spliceHeap h q v).mem a).value) =
      l.map (fun a => (h.mem a).value) :=
    fun l hl => List.map_congr_left (fun x hx => spliceHeap_value h q v x (hl x hx) hq)
  simp only [chainVals, List.map_append, List.map_cons]
  rw [hmap _ (fun x hx => hbb x (List.take_subset i addrs hx)),
    hmap _ (fun x hx => hbb x (List.drop_subset i addrs hx))]
  rw [spliceHeap_mem_fresh h q v (Nat.ne_of_lt hq)]
  rw [List.map_take, List.map_drop]

theorem get_spec (s : State) (addrs : List Nat) (j : Nat)
    (hc : chainB s.heap ((s.heap.mem s.lst.first).next) addrs = true)
    (hsize : s.lst.size = addrs.length)
    (hlen : addrs.length < 2 ^ 31)
    (hj : j < addrs.length) :
    linked_list_get s (j : Int) = (chainVals s.heap addrs).getD j 0 := by
  have e1 : toInt32 (linked_list_size s : Int) = (addrs.length : Int) := by
    rw [linked_list_size, hsize]
    exact toInt32_small _ (by omega) (by exact_mod_cast hlen)
  have e2 : toInt32 ((addrs.length : Int) - 1) = (addrs.length : Int) - 1 :=
    toInt32_small _ (by omega) (by omega)
  have e3 : toSizeT ((addrs.length : Int) - 1) = addrs.length - 1 := by
    rw [toSizeT_small _ (by omega) (by omega)]
    omega
  have e4 : list_inner_adjust_index (j : Int) (addrs.length - 1) = j :=
    adjust_index_of_le j (addrs.length - 1) (by omega) (by omega)
  have e5 : toSizeT (j : Int) = j := toSizeT_ofNat j (by omega)
  have e6 : ¬((j : Int) = -1) := by omega
  have hwalk := walk_current s.heap s.lst j addrs s.lst.first hc hj
  simp only [linked_list_get, e1, e2, e3, e4, e5, e6, if_false]
  simpa [list_iterator] using hwalk

theorem prepend_heap (s : State) (v : elem_t) (hf : s.heap.fresh ≠ 0) :
    (linked_list_prepend true s v).heap = spliceHeap s.heap s.lst.first v := by
  simp [linked_list_prepend, link_new, Heap.alloc, hf, spliceHeap]

theorem prepend_first (s : State) (v : elem_t) (hf : s.heap.fresh ≠ 0) :
    (linked_list_prepend true s v).lst.first = s.lst.first := by
  simp only [linked_list_prepend, link_new, Heap.alloc, if_true]
  split
  · rename_i h0
    exact absurd h0 hf
  · split <;> rfl

theorem prepend_size (s : State) (v : elem_t) (hf : s.heap.fresh ≠ 0) :
    (linked_list_prepend true s v).lst.size = (s.lst.size + 1) % size_t_mod := by
  simp only [linked_list_prepend, link_new, Heap.alloc, if_true]
  split
  · rename_i h0
    exact absurd h0 hf
  · split <;> rfl

theorem append_heap (s : State) (v : elem_t) (hf : s.heap.fresh ≠ 0)
    (hnext : (s.heap.mem s.lst.last).next = 0) :
    (linked_list_append true s v).heap = spliceHeap s.heap s.lst.last v := by
  simp [linked_list_append, link_new, Heap.alloc, hf, spliceHeap, hnext]

theorem append_first (s : State) (v : elem_t) (hf : s.heap.fresh ≠ 0) :
    (linked_list_append true s v).lst.first = s.lst.first := by
  simp only [linked_list_append, link_new, Heap.alloc, if_true]
  split
  · rename_i h0
    exact absurd h0 hf
  · rfl

theorem append_size (s : State) (v : elem_t) (hf : s.heap.fresh ≠ 0) :
    (linked_list_append true s v).lst.size = (s.lst.size + 1) % size_t_mod := by
  simp only [linked_list_append, link_new, Heap.alloc, if_true]
  split
  · rename_i h0
    exact absurd h0 hf
  · rfl

theorem insert_characterization (s : State) (addrs : List Nat) (v : elem_t) (i : Nat)
    (hc : chainB s.heap ((s.heap.mem s.lst.first).next) addrs = true)
    (hsize : s.lst.size = addrs.length)
    (hlen : addrs.length < 2 ^ 31 - 1)
    (hlast : s.lst.last = (s.lst.first :: addrs).getD addrs.length 0)
    (hf0 : 0 < s.lst.first) (hff : s.lst.first < s.heap.fresh)
    (hi : i ≤ addrs.length) :
    (linked_list_insert true s (i : Int) v).heap =
        spliceHeap s.heap ((s.lst.first :: addrs).getD i 0) v ∧
    (linked_list_insert true s (i : Int) v).lst.first = s.lst.first ∧
    (linked_list_insert true s (i : Int) v).lst.size = addrs.length + 1 := by
  have hadj : list_inner_adjust_index (i : Int) (linked_list_size s) = (i : Int) := by
    rw [linked_list_size, hsize]
    exact adjust_index_of_le i addrs.length hi (by omega)
  have hvalid : toSizeT (i : Int) = i := toSizeT_ofNat i (by omega)
  have hne : ¬((i : Int) = -1) := by omega
  have hfne : s.heap.fresh ≠ 0 := by omega
  have hmod : (s.lst.size + 1) % size_t_mod = addrs.length + 1 := by
    rw [hsize]
    exact Nat.mod_eq_of_lt (by unfold size_t_mod; omega)
  by_cases hi0 : i = 0
  · subst hi0
    have heq : linked_list_insert true s ((0 : Nat) : Int) v = linked_list_prepend true s v := by
      simp only [linked_list_insert, hadj, hvalid, hne, if_false]
      simp
    rw [heq, List.getD_cons_zero]
    exact ⟨prepend_heap s v hfne, prepend_first s v hfne,
      by rw [prepend_size s v hfne, hmod]⟩
  · have hc1 : ¬(list_inner_adjust_index (i : Int) (linked_list_size s) = -1) := by
      rw [hadj]
      exact hne
    have hc2 : ¬(toSizeT (list_inner_adjust_index (i : Int) (linked_list_size s)) = 0) := by
      rw [hadj, hvalid]
      exact hi0
    by_cases hin : i = addrs.length
    · have heq : linked_list_insert true s (i : Int) v = linked_list_append true s v := by
        have hc3 : toSizeT (list_inner_adjust_index (i : Int) (linked_list_size s)) =
            linked_list_size s := by
          rw [hadj, hvalid, linked_list_size, hsize, hin]
        simp only [linked_list_insert]
        rw [if_neg hc1, if_neg hc2, if_pos hc3]
      have hnonempty : addrs ≠ [] := by
        intro h0
        subst h0
        simp at hi
        exact hi0 hi
      have hnext : (s.heap.mem s.lst.last).next = 0 := by
        rw [hlast]
        exact chainB_getD_last s.heap addrs _ s.lst.first hc hnonempty
      rw [heq]
      refine ⟨?_, append_first s v hfne, by rw [append_size s v hfne, hmod]⟩
      rw [append_heap s v hfne hnext, hlast, hin]
    · have hiter : (advance s (list_iterator s) i).current = (s.lst.first :: addrs).getD i 0 := by
        have := advance_current s.heap s.lst i addrs s.lst.first hc hi
        simpa [list_iterator] using this
      have heq : linked_list_insert true s (i : Int) v =
          ⟨spliceHeap s.heap ((s.lst.first :: addrs).getD i 0) v,
           { s.lst with size := (s.lst.size + 1) % size_t_mod }⟩ := by
        have hc3 : ¬(toSizeT (list_inner_adjust_index (i : Int) (linked_list_size s)) =
            linked_list_size s) := by
          rw [hadj, hvalid, linked_list_size, hsize]
          exact hin
        simp only [linked_list_insert]
        rw [if_neg hc1, if_neg hc2, if_neg hc3, hadj, hvalid]
        simp only [iterator_insert, link_new, if_true, hiter]
        simp [Heap.alloc, hfne, spliceHeap, Heap.writeNext]
      rw [heq]
      exact ⟨rfl, rfl, hmod⟩

theorem getD_append_at {α : Type} (v d : α) (l1 l2 : List α) (i : Nat) (hl : l1.length = i) :
    (l1 ++ v :: l2).getD i d = v := by
  subst hl
  exact getD_append_length v d l2 l1

/-- Claim C7.  On any well-formed list state and any index i in [0, size],
a successful linked_list_insert of v at i followed immediately by
linked_list_get at i returns v. -/
theorem insert_then_get (s : State) (addrs : List Nat) (v : elem_t) (i : Nat)
    (hwf : WF s addrs) (hi : i ≤ addrs.length) :
    linked_list_get (linked_list_insert true s (i : Int) v) (i : Int) = v := by
  obtain ⟨hc, hsize, hlen, hlast, hf0, hff, hbb, hni, hnd⟩ := hwf
  obtain ⟨hh, hfst, hsz⟩ := insert_characterization s addrs v i hc hsize hlen hlast hf0 hff hi
  have hqlt : (s.lst.first :: addrs).getD i 0 < s.heap.fresh := by
    have hmem : (s.lst.first :: addrs).getD i 0 ∈ s.lst.first :: addrs :=
      getD_mem _ i 0 (by simp only [List.length_cons]; omega)
    rcases List.mem_cons.mp hmem with he | hm
    · omega
    · exact hbb _ hm
  have hchain2 := chainB_splice s.heap v i addrs s.lst.first hc hi hf0 hff hbb hni hnd
  have hvals2 := chainVals_splice s.heap ((s.lst.first :: addrs).getD i 0) v addrs i hqlt hbb
  have hlen2 : (addrs.take i ++ s.heap.fresh :: addrs.drop i).length = addrs.length + 1 := by
    simp only [List.length_append, List.length_cons, List.length_take, List.length_drop]
    omega
  have hget := get_spec (linked_list_insert true s (i : Int) v)
    (addrs.take i ++ s.heap.fresh :: addrs.drop i) i
    (by rw [hh, hfst]; exact hchain2)
    (by rw [hsz, hlen2])
    (by rw [hlen2]; omega)
    (by rw [hlen2]; omega)
  rw [hget, hh, hvals2]
  exact getD_append_at v 0 _ _ i
    (by simp only [chainVals, List.length_map, List.length_take]; omega)

/-- Witness for claim C7: inserting 99 at index 1 of the concrete
well-formed list [10, 20] (data nodes at addresses 2 and 3) and reading
index 1 back yields 99. -/
theorem insert_then_get_witness :
    linked_list_get (linked_list_insert true exL2 ((1 : Nat) : Int) 99) ((1 : Nat) : Int) = 99 :=
  insert_then_get exL2 [2, 3] 99 1
    (by refine ⟨?_, ?_, ?_, ?_, ?_, ?_, ?_, ?_, ?_⟩ <;> decide) (by decide)
